import Mathlib

/-!
A shallow embedding of the Screenplay-Pattern core of the repository
(`src/packages/core/src/screenplay/Actor.ts`): the `Actor` class, its ability
registry, the `ActivityDescriber`, the `OutcomeMatcher` and the
`TrackedActivity` wrapper, together with the `Stage` collaborator modelled
from the specification.  JavaScript promises are embedded as
`Except Thrown` values threaded through explicit state, and sequential
`reduce`-based promise chains become left folds.
-/

namespace Serenity

/--
A value thrown by JavaScript code.  `jsError` embeds an `Error` instance
without a cause and `jsErrorCaused` one with a cause (as carried by
`TestCompromisedError`): `ctorName` is `constructor.name`, `msg` is the
message, and the three Boolean fields record the `instanceof` checks against
the framework error classes `ImplementationPendingError`,
`TestCompromisedError` and `AssertionError` (all of which extend `Error`).
`otherValue` embeds any thrown value that is not an `instanceof Error`.
-/
inductive Thrown : Type where
  | jsError (ctorName : String) (msg : String)
      (implPending : Bool) (compromised : Bool) (frameworkAssertion : Bool) : Thrown
  | jsErrorCaused (ctorName : String) (msg : String)
      (implPending : Bool) (compromised : Bool) (frameworkAssertion : Bool)
      (cause : Thrown) : Thrown
  | otherValue (tag : String) : Thrown
deriving DecidableEq, Repr

/-- `error instanceof ImplementationPendingError`. -/
def isImplementationPendingError : Thrown → Bool
  | .jsError _ _ p _ _ => p
  | .jsErrorCaused _ _ p _ _ _ => p
  | .otherValue _ => false

/-- `error instanceof TestCompromisedError`. -/
def isTestCompromisedError : Thrown → Bool
  | .jsError _ _ _ c _ => c
  | .jsErrorCaused _ _ _ c _ _ => c
  | .otherValue _ => false

/-- `error instanceof AssertionError` (the framework assertion error). -/
def isFrameworkAssertionError : Thrown → Bool
  | .jsError _ _ _ _ a => a
  | .jsErrorCaused _ _ _ _ a _ => a
  | .otherValue _ => false

/-- `error instanceof Error`. -/
def isError : Thrown → Bool
  | .jsError _ _ _ _ _ => true
  | .jsErrorCaused _ _ _ _ _ _ => true
  | .otherValue _ => false

/-- `error.constructor.name` for embedded `Error` instances. -/
def ctorNameOf : Thrown → String
  | .jsError n _ _ _ _ => n
  | .jsErrorCaused n _ _ _ _ _ => n
  | .otherValue t => t

/-- The message carried by an embedded `Error` instance. -/
def msgOf : Thrown → String
  | .jsError _ m _ _ _ => m
  | .jsErrorCaused _ m _ _ _ _ => m
  | .otherValue t => t

/-- The `cause` carried by an embedded `Error` instance. -/
def causeOf : Thrown → Option Thrown
  | .jsError _ _ _ _ _ => none
  | .jsErrorCaused _ _ _ _ _ c => some c
  | .otherValue _ => none

/-- `new TestCompromisedError(msg, cause)`. -/
def mkTestCompromisedError (msg : String) (cause : Thrown) : Thrown :=
  .jsErrorCaused "TestCompromisedError" msg false true false cause

/-- `new ConfigurationError(msg)`. -/
def mkConfigurationError (msg : String) : Thrown :=
  .jsError "ConfigurationError" msg false false false

/-- Does `pat` occur at the start of `s`? (`List Char` level). -/
def listStartsWith : List Char → List Char → Bool
  | [], _ => true
  | _ :: _, [] => false
  | p :: ps, c :: cs => p == c && listStartsWith ps cs

/-- Does `pat` occur somewhere inside `s`?  This embeds the JavaScript
regular-expression test `/pat/.test(s)` for a plain-text pattern. -/
def listHasSub (pat : List Char) : List Char → Bool
  | [] => listStartsWith pat []
  | c :: cs => listStartsWith pat (c :: cs) || listHasSub pat cs

/-- `/pat/.test(s)` for a plain-text pattern `pat`. -/
def strHasSub (pat s : String) : Bool :=
  listHasSub pat.data s.data

/-- Replace the first occurrence of `pat` in `s` with `repl`
(`List Char` level); the JavaScript `String.prototype.replace` with a string
pattern replaces only the first occurrence. -/
def listReplaceFirst (pat repl : List Char) : List Char → List Char
  | [] => if listStartsWith pat [] then repl else []
  | c :: cs =>
    if listStartsWith pat (c :: cs) then repl ++ (c :: cs).drop pat.length
    else c :: listReplaceFirst pat repl cs

/-- `s.replace(pat, repl)` — JavaScript replaces only the first occurrence
when the pattern is a plain string. -/
def strReplaceFirst (pat repl s : String) : String :=
  ⟨listReplaceFirst pat.data repl.data s.data⟩

/-- `names.join(', ')`. -/
def joinComma : List String → String
  | [] => ""
  | [x] => x
  | x :: y :: rest => x ++ ", " ++ joinComma (y :: rest)

/--
The closed set of problem indications produced by the outcome matcher, each
carrying the originating thrown value
(`ImplementationPending`, `ExecutionCompromised`,
`ExecutionFailedWithAssertionError`, `ExecutionFailedWithError`).
-/
inductive ProblemIndication : Type where
  | implementationPending (e : Thrown)
  | executionCompromised (e : Thrown)
  | executionFailedWithAssertionError (e : Thrown)
  | executionFailedWithError (e : Thrown)
deriving DecidableEq, Repr

/-- The outcome attached to a `Finished` event. -/
inductive Outcome : Type where
  | executionSuccessful
  | problem (p : ProblemIndication)
deriving DecidableEq, Repr

namespace OutcomeMatcher

/--
`OutcomeMatcher.outcomeFor` from `Actor.ts`: a `tiny-types` `match` chain
testing `instanceof ImplementationPendingError`, then
`instanceof TestCompromisedError`, then `instanceof AssertionError`, then
`instanceof Error` (in which case the constructor name is tested against the
regular expression `/AssertionError/` to recognise third-party assertion
errors), with `ExecutionFailedWithError` as the fallback for everything else.
-/
def outcomeFor (error : Thrown) : ProblemIndication :=
  if isImplementationPendingError error then .implementationPending error
  else if isTestCompromisedError error then .executionCompromised error
  else if isFrameworkAssertionError error then .executionFailedWithAssertionError error
  else if isError error then
    (if strHasSub "AssertionError" (ctorNameOf error) then
      .executionFailedWithAssertionError error
     else .executionFailedWithError error)
  else .executionFailedWithError error

end OutcomeMatcher

/--
Modelled from the spec: the ordered rule list of the outcome classification
as the specification words it — "reimplement as an explicit closed
tagged-union match over a small ordered list of predicate/variant pairs,
preserving the stated priority order (pending > compromised >
framework-assertion > name-pattern-assertion > generic)".
-/
def specOutcomeRules : List ((Thrown → Bool) × (Thrown → ProblemIndication)) :=
  [ (isImplementationPendingError, ProblemIndication.implementationPending),
    (isTestCompromisedError, ProblemIndication.executionCompromised),
    (isFrameworkAssertionError, ProblemIndication.executionFailedWithAssertionError),
    (fun e => isError e && strHasSub "AssertionError" (ctorNameOf e),
      ProblemIndication.executionFailedWithAssertionError) ]

/-- First-match evaluation of an ordered rule list, defaulting to
`ExecutionFailedWithError` so that no thrown value is left unmapped. -/
def firstMatch : List ((Thrown → Bool) × (Thrown → ProblemIndication)) → Thrown → ProblemIndication
  | [], e => .executionFailedWithError e
  | (p, b) :: rest, e => if p e then b e else firstMatch rest e

/-- Modelled from the spec: outcome classification as the ordered,
first-match-wins rule table of the claim. -/
def specOutcomeFor (e : Thrown) : ProblemIndication :=
  firstMatch specOutcomeRules e

instance exceptDecidableEq {ε α : Type} [DecidableEq ε] [DecidableEq α] :
    DecidableEq (Except ε α) := fun x y =>
  match x, y with
  | .ok a, .ok b =>
    if h : a = b then isTrue (by rw [h]) else isFalse (by intro hh; cases hh; exact h rfl)
  | .error a, .error b =>
    if h : a = b then isTrue (by rw [h]) else isFalse (by intro hh; cases hh; exact h rfl)
  | .ok _, .error _ => isFalse (by intro hh; cases hh)
  | .error _, .ok _ => isFalse (by intro hh; cases hh)

/--
An ability instance granted to an actor.  `abilityType` embeds the prototype
chain of the value's constructor below the abstract `Ability` root: the head
is the concrete class (so `constructor.name` is the head), each later entry
is the parent class, and the last entry is the direct subclass of `Ability`.
`isAbility` records the `instanceof Ability` check.  The remaining fields
embed the duck-typed optional capabilities: whether `initialise`,
`isInitialised` and `discard` exist as methods, the current value returned by
`isInitialised()`, and the results of awaiting `initialise()` and
`discard()`.
-/
structure Ability : Type where
  isAbility : Bool
  abilityType : List String
  hasInitialise : Bool
  hasIsInitialised : Bool
  initialised : Bool
  initialiseResult : Except Thrown Unit
  hasDiscard : Bool
  discardResult : Except Thrown Unit
deriving DecidableEq, Repr

/-- `ability.constructor.name`. -/
def Ability.ctorName (a : Ability) : String :=
  a.abilityType.headD ""

/-- `typeof ability[methodName] === 'function'` for the method names the
`Actor` class probes (`initialise`, `isInitialised`, `discard`). -/
def Ability.hasMethod (a : Ability) : String → Bool
  | "initialise" => a.hasInitialise
  | "isInitialised" => a.hasIsInitialised
  | "discard" => a.hasDiscard
  | _ => false

/-- The `.name` property of an embedded ability class (the head of its
prototype chain). -/
def typeName (t : List String) : String :=
  t.headD ""

/-- `Map.prototype.get`: the first (and, under the actor's invariant, only)
entry with the given key. -/
def mapGet (m : List (List String × Ability)) (k : List String) : Option Ability :=
  (m.find? (fun p => decide (p.1 = k))).map (fun p => p.2)

/-- `Map.prototype.set`: replaces the value of an existing key in place, or
appends a new entry at the end, preserving insertion order. -/
def mapSet (m : List (List String × Ability)) (k : List String) (v : Ability) :
    List (List String × Ability) :=
  if m.any (fun p => decide (p.1 = k)) then
    m.map (fun p => if p.1 = k then (k, v) else p)
  else m ++ [(k, v)]

/--
The `Actor` class state: the actor's `name` and its `abilities` map from
ability type to ability instance, in insertion order (the `Stage` reference
is threaded separately).
-/
structure ActorState : Type where
  name : String
  abilities : List (List String × Ability)
deriving DecidableEq, Repr

namespace Actor

/--
`Actor.mostGenericTypeOf` from `Actor.ts`: walk `Object.getPrototypeOf` up
the class chain until the parent is the abstract `Ability` root (the parent
of a singleton chain) or nullish, and return that most generic type.
-/
def mostGenericTypeOf : List String → List String
  | [] => []
  | [x] => [x]
  | _ :: y :: rest => mostGenericTypeOf (y :: rest)

/-- The registry key under which an ability instance is stored. -/
def abilityRoot (a : Ability) : List String :=
  mostGenericTypeOf a.abilityType

/--
`Actor.acquireAbility` from `Actor.ts`: reject values that are not
`instanceof Ability` with a `ConfigurationError`, otherwise store the
instance keyed by the most generic type of its constructor.
-/
def acquireAbility (actor : ActorState) (ability : Ability) : Except Thrown ActorState :=
  if ! ability.isAbility then
    .error (mkConfigurationError
      ("Custom abilities must extend Ability from '@serenity-js/core'. Received " ++
        ability.ctorName))
  else
    .ok { actor with abilities := mapSet actor.abilities (abilityRoot ability) ability }

/-- `Actor.whoCan` from `Actor.ts`: acquire each ability in order; a thrown
`ConfigurationError` aborts the iteration. -/
def whoCan (actor : ActorState) : List Ability → Except Thrown ActorState
  | [] => .ok actor
  | a :: rest =>
    match acquireAbility actor a with
    | .error e => .error e
    | .ok actor1 => whoCan actor1 rest

/-- `Actor.findAbilityTo` from `Actor.ts`: look the requested type up under
its most generic ancestor. -/
def findAbilityTo (actor : ActorState) (doSomething : List String) : Option Ability :=
  mapGet actor.abilities (mostGenericTypeOf doSomething)

/--
`Actor.abilityTo` from `Actor.ts`: return the found ability, or throw a
`ConfigurationError` whose message depends on whether the actor holds any
abilities at all.
-/
def abilityTo (actor : ActorState) (abilityType : List String) : Except Thrown Ability :=
  match findAbilityTo actor abilityType with
  | some found => .ok found
  | none =>
    if actor.abilities.length > 0 then
      .error (mkConfigurationError
        (actor.name ++ " can " ++
          joinComma (actor.abilities.map (fun p => typeName p.1)) ++
          ". They can't, however, " ++ typeName abilityType ++
          " yet. Did you give them the ability to do so?"))
    else
      .error (mkConfigurationError
        (actor.name ++ " can't " ++ typeName abilityType ++
          " yet. Did you give them the ability to do so?"))

/-- `Actor.findAbilitiesOfType` from `Actor.ts`: the held abilities, in map
iteration order, that expose every requested method as a function. -/
def findAbilitiesOfType (actor : ActorState) (methodNames : List String) : List Ability :=
  (actor.abilities.map (fun p => p.2)).filter
    (fun a => methodNames.all (fun m => a.hasMethod m))

/-- The abilities `Actor.initialiseAbilities` will initialise: those exposing
both `initialise` and `isInitialised` whose `isInitialised()` is `false`.
All `isInitialised()` checks happen up front, before any `initialise()`. -/
def pendingInitialisable (actor : ActorState) : List Ability :=
  (findAbilitiesOfType actor ["initialise", "isInitialised"]).filter
    (fun a => ! a.initialised)

/-- The `TestCompromisedError` message wrapping an initialisation failure. -/
def initialiseFailureMsg (actor : ActorState) (a : Ability) : String :=
  actor.name ++ " couldn't initialise the ability to " ++ a.ctorName

/--
`Actor.initialiseAbilities` from `Actor.ts`: a promise `reduce` over the
pending abilities; each step is `previous.then(() => ability.initialise())
.catch(error => { throw new TestCompromisedError(..., error) })`.  The
`catch` also sees rejections of `previous`, so an already-failed chain is
re-wrapped at every later step.  Returns the constructor names of the
abilities whose `initialise()` was actually invoked, in order, together with
the final settlement of the chain.
-/
def initialiseAbilities (actor : ActorState) : List String × Except Thrown Unit :=
  (pendingInitialisable actor).foldl
    (fun acc a =>
      match acc.2 with
      | .ok _ =>
        match a.initialiseResult with
        | .ok _ => (acc.1 ++ [a.ctorName], .ok ())
        | .error e =>
          (acc.1 ++ [a.ctorName],
            .error (mkTestCompromisedError (initialiseFailureMsg actor a) e))
      | .error e =>
        (acc.1, .error (mkTestCompromisedError (initialiseFailureMsg actor a) e)))
    ([], .ok ())

/--
`Actor.dismiss` from `Actor.ts`: a promise `reduce` over the abilities that
expose `discard`, each step `previous.then(() => ability.discard())`; a
rejected `previous` skips the remaining `discard` calls.  Returns the
constructor names of the abilities whose `discard()` was actually invoked,
in order, together with the final settlement of the chain.
-/
def dismiss (actor : ActorState) : List String × Except Thrown Unit :=
  (findAbilitiesOfType actor ["discard"]).foldl
    (fun acc a =>
      match acc.2 with
      | .ok _ => (acc.1 ++ [a.ctorName], a.discardResult)
      | .error e => (acc.1, .error e))
    ([], .ok ())

end Actor

/-- The human-readable details of one tracked activity invocation:
`new ActivityDetails(name, instantiationLocation)`. -/
structure ActivityDetails : Type where
  name : String
  location : String
deriving DecidableEq, Repr

/-- Whether a tracked activity announces Task or Interaction events. -/
inductive ActivityEventKind : Type where
  | task
  | interaction
deriving DecidableEq, Repr

/-- The domain events announced by the code under verification:
`TaskStarts` / `InteractionStarts` and `TaskFinished` / `InteractionFinished`,
each carrying the scene id, the activity id, the details, (for Finished) the
outcome, and the timestamp. -/
inductive DomainEvent : Type where
  | starts (kind : ActivityEventKind) (sceneId : Nat) (activityId : Nat)
      (details : ActivityDetails) (time : Nat)
  | finished (kind : ActivityEventKind) (sceneId : Nat) (activityId : Nat)
      (details : ActivityDetails) (outcome : Outcome) (time : Nat)
deriving DecidableEq, Repr

/--
Modelled from the spec: the `Stage` collaborator (its source is not under
`src/`).  Per §4.4 it maintains the current scene id and current activity id,
mints fresh activity identifiers, timestamps and announces events, and
offers a cue-synchronisation point.  `announced` is the event stream in
emission order; `cueWaits` counts the synchronisation points taken.
-/
structure Stage : Type where
  sceneId : Nat
  nextActivityId : Nat
  currentActivityId : Nat
  announced : List DomainEvent
  time : Nat
  cueWaits : Nat
deriving DecidableEq, Repr

namespace Stage

/-- Modelled from the spec: `stage.currentSceneId()`. -/
def currentSceneId (st : Stage) : Nat :=
  st.sceneId

/-- Modelled from the spec: `stage.currentTime()`. -/
def currentTime (st : Stage) : Nat :=
  st.time

/-- Modelled from the spec: `stage.assignNewActivityId(details)` mints a
fresh, never-reused identifier and makes it current. -/
def assignNewActivityId (st : Stage) : Nat × Stage :=
  (st.nextActivityId,
    { st with nextActivityId := st.nextActivityId + 1,
              currentActivityId := st.nextActivityId })

/-- Modelled from the spec: `stage.announce(event)` forwards the event to
the crew; the observable effect here is appending it to the stream. -/
def announce (st : Stage) (ev : DomainEvent) : Stage :=
  { st with announced := st.announced ++ [ev] }

/-- Modelled from the spec: `stage.waitForNextCue()` is a synchronisation
point; it settles background work and resolves. -/
def waitForNextCue (st : Stage) : Stage :=
  { st with cueWaits := st.cueWaits + 1 }

end Stage

/--
An `Activity` (`Task` or `Interaction`): its `toString()` value, its
constructor name, its instantiation location, whether it is an
`instanceof Interaction`, and its `performAs` behaviour embedded as a stage
transformer that either resolves or rejects with a thrown value.
-/
structure Activity : Type where
  toStringVal : String
  ctorName : String
  location : String
  isInteraction : Bool
  run : Stage → Stage × Except Thrown Unit

/-- `({}).toString()` — the generic-object sentinel a default activity
description is compared against. -/
def objectSentinel : String :=
  "[object Object]"

namespace ActivityDescriber

/--
`ActivityDescriber.describe` from `Actor.ts`: when the activity's string
form equals the generic-object sentinel the template is
`"#actor performs <ConcreteActivityClassName>"`, otherwise the activity's own
string form; then the first `#actor` occurrence is replaced with the actor's
name (JavaScript `String.prototype.replace` with a string pattern).
-/
def describe (activity : Activity) (actorName : String) : String :=
  let template :=
    if activity.toStringVal = objectSentinel then
      "#actor performs " ++ activity.ctorName
    else activity.toStringVal
  strReplaceFirst "#actor" actorName template

end ActivityDescriber

namespace TrackedActivity

/-- The `ActivityDetails` value a tracked invocation constructs once. -/
def detailsFor (activity : Activity) (actorName : String) : ActivityDetails :=
  ⟨ActivityDescriber.describe activity actorName, activity.location⟩

/-- The Starts/Finished event pair selected by
`this.activity instanceof Interaction`. -/
def kindOf (activity : Activity) : ActivityEventKind :=
  if activity.isInteraction then .interaction else .task

/-- The stage as the wrapped activity sees it: after the activity id has
been minted and the Starts event announced. -/
def startStage (stage : Stage) (activity : Activity) (actorName : String) : Stage :=
  let sceneId := stage.currentSceneId
  let details := detailsFor activity actorName
  let (activityId, st1) := stage.assignNewActivityId
  st1.announce (.starts (kindOf activity) sceneId activityId details st1.currentTime)

/--
`TrackedActivity.performAs` from `Actor.ts`: capture the scene id, construct
the details, mint an activity id, announce Starts, run the wrapped activity;
on success announce Finished with `ExecutionSuccessful`, on failure announce
Finished with the outcome classified from the error and re-throw that same
error.  The captured scene id, activity id and details are reused unchanged
for the Finished announcement.
-/
def performAs (stage : Stage) (activity : Activity) (actorName : String) :
    Stage × Except Thrown Unit :=
  let sceneId := stage.currentSceneId
  let details := detailsFor activity actorName
  let activityId := (stage.assignNewActivityId).1
  match activity.run (startStage stage activity actorName) with
  | (st2, .ok _) =>
    (st2.announce
      (.finished (kindOf activity) sceneId activityId details
        .executionSuccessful st2.currentTime),
      .ok ())
  | (st2, .error e) =>
    (st2.announce
      (.finished (kindOf activity) sceneId activityId details
        (.problem (OutcomeMatcher.outcomeFor e)) st2.currentTime),
      .error e)

end TrackedActivity

namespace Actor

/-- One step of the `attemptsTo` promise chain: on a resolved `previous`,
wait for the next cue and perform the tracked activity; on a rejected
`previous`, skip the activity entirely. -/
def performStep (actor : ActorState) (acc : Stage × Except Thrown Unit)
    (a : Activity) : Stage × Except Thrown Unit :=
  match acc.2 with
  | .error e => (acc.1, .error e)
  | .ok _ => TrackedActivity.performAs (acc.1.waitForNextCue) a actor.name

/-- The `reduce` of `attemptsTo` over the (tracked) activities, from a given
seed settlement. -/
def performChain (actor : ActorState) (acc : Stage × Except Thrown Unit)
    (activities : List Activity) : Stage × Except Thrown Unit :=
  activities.foldl (performStep actor) acc

/--
`Actor.attemptsTo` from `Actor.ts`: wrap each activity in a
`TrackedActivity` and `reduce` them into one sequential promise chain seeded
by `initialiseAbilities()`, with a `waitForNextCue()` before each activity.
-/
def attemptsTo (actor : ActorState) (stage : Stage) (activities : List Activity) :
    Stage × Except Thrown Unit :=
  performChain actor (stage, (initialiseAbilities actor).2) activities

end Actor

/--
An `Answerable` value as `Actor.answer` inspects it.  `nullish` is
`undefined` or `null`.  `promiseLike` is a defined value with an own `then`
property (`hasAnsweredBy` records whether it also exposes `answeredBy`; the
promise resolves to `v`).  `question` is a defined value without an own
`then` that `Question.isAQuestion` recognises; its `answeredBy(actor)`
returns `rest`, and `questionId` identifies the question so invocations can
be observed.  `plain` is any other defined value.
-/
inductive Answerable (T : Type) : Type where
  | nullish : Answerable T
  | promiseLike (hasAnsweredBy : Bool) (questionId : Nat) (v : T) : Answerable T
  | question (questionId : Nat) (rest : Answerable T) : Answerable T
  | plain (v : T) : Answerable T
deriving DecidableEq, Repr

/-- The result of `Actor.answer`: either the promise object returned as-is,
or `Promise.resolve` of a value (`none` embeds resolving with the nullish
value itself). -/
inductive AnswerResult (T : Type) : Type where
  | asIs (p : Answerable T)
  | resolved (v : Option T)
deriving DecidableEq, Repr

namespace Actor

/--
`Actor.answer` from `Actor.ts`: if the value is defined and has an own
`then` property it is returned as-is; otherwise if it is defined and a
`Question` it is answered recursively through `answeredBy`; otherwise it is
resolved as a plain value.  Also returns the ids of the questions whose
`answeredBy` was invoked, in invocation order.
-/
def answer {T : Type} : Answerable T → List Nat × AnswerResult T
  | .nullish => ([], .resolved none)
  | .promiseLike h id v => ([], .asIs (.promiseLike h id v))
  | .question id rest =>
    let (trace, r) := answer rest
    (id :: trace, r)
  | .plain v => ([], .resolved (some v))

end Actor

/-! ### General lemmas about the embedded string operations -/

theorem strData_append (s t : String) : (s ++ t).data = s.data ++ t.data := by
  cases s
  cases t
  rfl

theorem listStartsWith_self_append (p s : List Char) :
    listStartsWith p (p ++ s) = true := by
  induction p with
  | nil => rfl
  | cons c cs ih => simpa [listStartsWith] using ih

theorem listReplaceFirst_self_append (p r s : List Char) :
    listReplaceFirst p r (p ++ s) = r ++ s := by
  cases p with
  | nil =>
    cases s with
    | nil => simp [listReplaceFirst, listStartsWith]
    | cons c cs => simp [listReplaceFirst, listStartsWith]
  | cons a as =>
    show listReplaceFirst (a :: as) r (a :: (as ++ s)) = r ++ s
    have hs : listStartsWith (a :: as) (a :: (as ++ s)) = true := by
      simpa using listStartsWith_self_append (a :: as) s
    simp [listReplaceFirst, hs, List.drop_left]

theorem listReplaceFirst_of_no_occurrence (p r s : List Char)
    (h : listHasSub p s = false) : listReplaceFirst p r s = s := by
  induction s with
  | nil =>
    have h0 : listStartsWith p [] = false := by simpa [listHasSub] using h
    simp [listReplaceFirst, h0]
  | cons c cs ih =>
    have h1 : listStartsWith p (c :: cs) = false ∧ listHasSub p cs = false := by
      simpa [listHasSub] using h
    simp [listReplaceFirst, h1.1, ih h1.2]

theorem joinComma_mem_infix (x : String) (l : List String) (hx : x ∈ l) :
    ∃ pre post, (joinComma l).data = pre ++ x.data ++ post := by
  induction l with
  | nil => cases hx
  | cons y rest ih =>
    cases rest with
    | nil =>
      rcases List.mem_singleton.mp hx with rfl
      exact ⟨[], [], by simp [joinComma]⟩
    | cons z rest2 =>
      rcases List.mem_cons.mp hx with rfl | hmem
      · refine ⟨[], (", " ++ joinComma (z :: rest2)).data, ?_⟩
        simp [joinComma, strData_append]
      · rcases ih hmem with ⟨pre, post, hpp⟩
        refine ⟨(y ++ ", ").data ++ pre, post, ?_⟩
        simp [joinComma, strData_append, hpp]

/-! ### Claim theorems -/

/--
Claim C1: outcome classification is a total, deterministic, ordered
function — for every thrown value the matcher from the source
(`OutcomeMatcher.outcomeFor`) produces exactly the outcome given by the
spec's ordered first-match rule table (`specOutcomeFor`): implementation
pending, then compromised, then framework assertion error, then an `Error`
whose constructor name matches `AssertionError`, and any other `Error` or
non-`Error` value yields `ExecutionFailedWithError`.  No thrown value is
left unmapped.
-/
theorem C1_outcome_classification (e : Thrown) :
    OutcomeMatcher.outcomeFor e = specOutcomeFor e := by
  cases e with
  | jsError n m p c a =>
    cases p <;> cases c <;> cases a <;>
      simp [OutcomeMatcher.outcomeFor, specOutcomeFor, firstMatch, specOutcomeRules,
        isImplementationPendingError, isTestCompromisedError,
        isFrameworkAssertionError, isError]
  | jsErrorCaused n m p c a cause =>
    cases p <;> cases c <;> cases a <;>
      simp [OutcomeMatcher.outcomeFor, specOutcomeFor, firstMatch, specOutcomeRules,
        isImplementationPendingError, isTestCompromisedError,
        isFrameworkAssertionError, isError]
  | otherValue t =>
    simp [OutcomeMatcher.outcomeFor, specOutcomeFor, firstMatch, specOutcomeRules,
      isImplementationPendingError, isTestCompromisedError,
      isFrameworkAssertionError, isError]

/--
Claim C7: `answer` dispatches in exactly this order — a value with an own
`then` property is returned as-is (even if it also looks like a Question),
otherwise a Question is answered recursively by invoking its `answeredBy`
(never treated as a plain value; nested questions are unwound all the way),
and otherwise the value is resolved as a plain value.
-/
theorem C7_answer_dispatch {T : Type} :
    (∀ (h : Bool) (id : Nat) (v : T),
      Actor.answer (Answerable.promiseLike h id v) =
        ([], AnswerResult.asIs (Answerable.promiseLike h id v)))
  ∧ (∀ (id : Nat) (rest : Answerable T),
      Actor.answer (Answerable.question id rest) =
        (id :: (Actor.answer rest).1, (Actor.answer rest).2))
  ∧ (∀ v : T,
      Actor.answer (Answerable.plain v) = ([], AnswerResult.resolved (some v)))
  ∧ (∀ (ids : List Nat) (v : T),
      Actor.answer (ids.foldr Answerable.question (Answerable.plain v)) =
        (ids, AnswerResult.resolved (some v))) := by
  refine ⟨fun h id v => rfl, fun id rest => rfl, fun v => rfl, fun ids v => ?_⟩
  induction ids with
  | nil => rfl
  | cons id rest ih => simp [List.foldr, Actor.answer, ih]

/--
Claim C9: the describer produces the display name from a template — when
the activity's string form equals the generic-object sentinel
`({}).toString()`, the template is `"#actor performs <ClassName>"` (so the
name becomes the actor's name, `" performs "`, and the class name); otherwise
the template is the activity's own string form with the first `#actor`
placeholder replaced by the actor's name (unchanged when no placeholder
occurs).
-/
theorem C9_activity_description (a : Activity) (n : String) :
    (a.toStringVal = objectSentinel →
      ActivityDescriber.describe a n = n ++ " performs " ++ a.ctorName)
  ∧ (a.toStringVal ≠ objectSentinel →
      ActivityDescriber.describe a n = strReplaceFirst "#actor" n a.toStringVal
      ∧ (strHasSub "#actor" a.toStringVal = false →
          ActivityDescriber.describe a n = a.toStringVal)) := by
  constructor
  · intro hdef
    have hsplit : ("#actor performs " ++ a.ctorName).data =
        "#actor".data ++ (" performs ".data ++ a.ctorName.data) := by
      rw [strData_append]
      show "#actor performs ".data ++ a.ctorName.data = _
      rw [← List.append_assoc]
      rfl
    show strReplaceFirst "#actor" n
        (if a.toStringVal = objectSentinel then "#actor performs " ++ a.ctorName
         else a.toStringVal) = n ++ " performs " ++ a.ctorName
    rw [if_pos hdef]
    show String.mk (listReplaceFirst "#actor".data n.data
        ("#actor performs " ++ a.ctorName).data) = n ++ " performs " ++ a.ctorName
    rw [hsplit, listReplaceFirst_self_append]
    have : (n ++ " performs " ++ a.ctorName).data =
        n.data ++ (" performs ".data ++ a.ctorName.data) := by
      rw [strData_append, strData_append, List.append_assoc]
    rw [← this]
  · intro hcustom
    have hbase : ActivityDescriber.describe a n =
        strReplaceFirst "#actor" n a.toStringVal := by
      show strReplaceFirst "#actor" n
          (if a.toStringVal = objectSentinel then "#actor performs " ++ a.ctorName
           else a.toStringVal) = _
      rw [if_neg hcustom]
    refine ⟨hbase, fun hno => ?_⟩
    rw [hbase]
    show String.mk (listReplaceFirst "#actor".data n.data a.toStringVal.data) =
      a.toStringVal
    rw [listReplaceFirst_of_no_occurrence _ _ _ hno]

/-- Witness for C9 at concrete inputs: a default-description activity
produces `"Wendy performs PayWithCreditCard"`, and a custom description
without a placeholder stays unchanged. -/
theorem C9_activity_description_witness :
    ActivityDescriber.describe
      ⟨objectSentinel, "PayWithCreditCard", "loc", false, fun st => (st, .ok ())⟩
      "Wendy" = "Wendy performs PayWithCreditCard"
  ∧ ActivityDescriber.describe
      ⟨"adds an item to the basket", "AddItem", "loc", false, fun st => (st, .ok ())⟩
      "Wendy" = "adds an item to the basket" := by
  constructor
  · exact (C9_activity_description
      ⟨objectSentinel, "PayWithCreditCard", "loc", false, fun st => (st, .ok ())⟩
      "Wendy").1 rfl
  · exact ((C9_activity_description
      ⟨"adds an item to the basket", "AddItem", "loc", false, fun st => (st, .ok ())⟩
      "Wendy").2 (by decide)).2 (by decide)

/--
Claim C4: resolving an ability type the actor does not hold (under
most-generic-ancestor lookup) fails with a `ConfigurationError`; with zero
abilities the message is exactly
`"<name> can't <T> yet. Did you give them the ability to do so?"`, and with
one or more other abilities the message additionally lists the name of every
ability type the actor currently has.
-/
theorem C4_missing_ability_error (actor : ActorState) (t : List String)
    (hnone : Actor.findAbilityTo actor t = none) :
    (actor.abilities = [] →
      Actor.abilityTo actor t = .error (mkConfigurationError
        (actor.name ++ " can't " ++ typeName t ++
          " yet. Did you give them the ability to do so?")))
  ∧ (actor.abilities ≠ [] →
      ∃ msg, Actor.abilityTo actor t = .error (mkConfigurationError msg) ∧
        ∀ p ∈ actor.abilities,
          ∃ pre post, msg.data = pre ++ (typeName p.1).data ++ post) := by
  constructor
  · intro hempty
    rw [Actor.abilityTo, hnone, hempty]
    simp
  · intro hne
    refine ⟨actor.name ++ " can " ++
      joinComma (actor.abilities.map (fun p => typeName p.1)) ++
      ". They can't, however, " ++ typeName t ++
      " yet. Did you give them the ability to do so?", ?_, ?_⟩
    · rw [Actor.abilityTo, hnone]
      rw [if_pos (by simpa [List.length_pos] using hne)]
    · intro p hp
      have hmem : typeName p.1 ∈ actor.abilities.map (fun q => typeName q.1) :=
        List.mem_map.mpr ⟨p, hp, rfl⟩
      rcases joinComma_mem_infix _ _ hmem with ⟨pre, post, hpp⟩
      refine ⟨(actor.name ++ " can ").data ++ pre,
        post ++ (". They can't, however, " ++ typeName t ++
          " yet. Did you give them the ability to do so?").data, ?_⟩
      simp only [strData_append, hpp, List.append_assoc]

/-- Witness for C4: the actor Wendy with no abilities resolving `CallAnApi`
fails with exactly the claimed message, which contains
`"Wendy can't CallAnApi yet."`; and an actor holding `FetchTheWeather`
gets the variant that lists that ability. -/
theorem C4_missing_ability_error_witness :
    Actor.abilityTo ⟨"Wendy", []⟩ ["CallAnApi"] = .error (mkConfigurationError
      "Wendy can't CallAnApi yet. Did you give them the ability to do so?")
  ∧ strHasSub "Wendy can't CallAnApi yet."
      "Wendy can't CallAnApi yet. Did you give them the ability to do so?" = true
  ∧ Actor.abilityTo
      ⟨"Apisitt", [(["FetchTheWeather"],
        ⟨true, ["FetchTheWeather"], false, false, false, .ok (), false, .ok ()⟩)]⟩
      ["CallAnApi"] = .error (mkConfigurationError
      ("Apisitt can FetchTheWeather. They can't, however, CallAnApi yet. " ++
        "Did you give them the ability to do so?")) := by
  refine ⟨?_, by decide, ?_⟩
  · have h := (C4_missing_ability_error ⟨"Wendy", []⟩ ["CallAnApi"] (by decide)).1 rfl
    rw [h]
    decide
  · have h := (C4_missing_ability_error
      ⟨"Apisitt", [(["FetchTheWeather"],
        ⟨true, ["FetchTheWeather"], false, false, false, .ok (), false, .ok ()⟩)]⟩
      ["CallAnApi"] (by decide)).2 (by decide)
    rcases h with ⟨msg, heq, hall⟩
    rw [heq]
    have hmsg : Actor.abilityTo
        ⟨"Apisitt", [(["FetchTheWeather"],
          ⟨true, ["FetchTheWeather"], false, false, false, .ok (), false, .ok ()⟩)]⟩
        ["CallAnApi"] = .error (mkConfigurationError
        ("Apisitt can FetchTheWeather. They can't, however, CallAnApi yet. " ++
          "Did you give them the ability to do so?")) := by decide
    rw [heq] at hmsg
    exact hmsg

/-! ### Lemmas about the ability registry -/

theorem find?_map_replace (m : List (List String × Ability)) (k : List String)
    (v : Ability) :
    (m.map (fun p => if p.1 = k then (k, v) else p)).find?
        (fun p => decide (p.1 = k)) =
      if m.any (fun p => decide (p.1 = k)) then some (k, v) else none := by
  induction m with
  | nil => rfl
  | cons p rest ih =>
    by_cases hp : p.1 = k
    · have hd : decide (p.1 = k) = true := by simpa using hp
      have hpos : (fun q : List String × Ability => decide (q.1 = k)) (k, v) = true := by
        simp
      rw [List.map_cons, if_pos hp, List.any_cons, hd,
        List.find?_cons_of_pos (p := fun q : List String × Ability => decide (q.1 = k))
          _ hpos, Bool.true_or]
      rfl
    · have hd : decide (p.1 = k) = false := by simpa using hp
      have hneg : ¬ ((fun q : List String × Ability => decide (q.1 = k)) p = true) := by
        simpa using hp
      rw [List.map_cons, if_neg hp, List.any_cons, hd,
        List.find?_cons_of_neg (p := fun q : List String × Ability => decide (q.1 = k))
          _ hneg, ih, Bool.false_or]

theorem mapGet_mapSet_self (m : List (List String × Ability)) (k : List String)
    (v : Ability) : mapGet (mapSet m k v) k = some v := by
  unfold mapGet mapSet
  by_cases h : m.any (fun p => decide (p.1 = k)) = true
  · rw [if_pos h, find?_map_replace, if_pos h]
    rfl
  · rw [if_neg h, List.find?_append]
    have hnone : m.find? (fun p => decide (p.1 = k)) = none := by
      rw [List.find?_eq_none]
      intro x hx hpx
      exact h (List.any_eq_true.mpr ⟨x, hx, hpx⟩)
    rw [hnone]
    simp

theorem find?_map_replace_ne (m : List (List String × Ability))
    (k k2 : List String) (v : Ability) (hne : k2 ≠ k) :
    (m.map (fun p => if p.1 = k then (k, v) else p)).find?
        (fun p => decide (p.1 = k2)) =
      m.find? (fun p => decide (p.1 = k2)) := by
  induction m with
  | nil => rfl
  | cons p rest ih =>
    by_cases hp : p.1 = k
    · have h1 : ¬ ((fun q : List String × Ability => decide (q.1 = k2)) (k, v) = true) := by
        simp only [decide_eq_true_eq]
        exact fun hh => hne hh.symm
      have h2 : ¬ ((fun q : List String × Ability => decide (q.1 = k2)) p = true) := by
        simp only [decide_eq_true_eq]
        exact fun hh => hne (Eq.trans hh.symm hp)
      rw [List.map_cons, if_pos hp,
        List.find?_cons_of_neg (p := fun q : List String × Ability => decide (q.1 = k2)) _ h1,
        List.find?_cons_of_neg (p := fun q : List String × Ability => decide (q.1 = k2)) _ h2, ih]
    · by_cases hp2 : p.1 = k2
      · rw [List.map_cons, if_neg hp,
          List.find?_cons_of_pos (p := fun q : List String × Ability => decide (q.1 = k2)) _ (by simpa using hp2)]
        rw [List.find?_cons_of_pos (p := fun q : List String × Ability => decide (q.1 = k2)) _ (by simpa using hp2)]
      · rw [List.map_cons, if_neg hp,
          List.find?_cons_of_neg (p := fun q : List String × Ability => decide (q.1 = k2)) _ (by simpa using hp2)]
        rw [List.find?_cons_of_neg (p := fun q : List String × Ability => decide (q.1 = k2)) _ (by simpa using hp2), ih]

theorem mapGet_mapSet_ne (m : List (List String × Ability)) (k k2 : List String)
    (v : Ability) (hne : k2 ≠ k) : mapGet (mapSet m k v) k2 = mapGet m k2 := by
  unfold mapGet mapSet
  by_cases h : m.any (fun p => decide (p.1 = k)) = true
  · rw [if_pos h, find?_map_replace_ne m k k2 v hne]
  · rw [if_neg h, List.find?_append]
    have hsing : (([((k, v) : List String × Ability)]).find?
        (fun p => decide (p.1 = k2))) = none := by
      have h1 : ¬ ((fun q : List String × Ability => decide (q.1 = k2)) (k, v) = true) := by
        simp only [decide_eq_true_eq]
        exact fun hh => hne hh.symm
      rw [List.find?_cons_of_neg (p := fun q : List String × Ability => decide (q.1 = k2)) _ h1, List.find?_nil]
    rw [hsing]
    cases m.find? (fun p => decide (p.1 = k2)) <;> rfl

theorem keys_mapSet (m : List (List String × Ability)) (k : List String)
    (v : Ability) :
    (mapSet m k v).map (fun p => p.1) =
      if m.any (fun p => decide (p.1 = k)) then m.map (fun p => p.1)
      else m.map (fun p => p.1) ++ [k] := by
  unfold mapSet
  by_cases h : m.any (fun p => decide (p.1 = k)) = true
  · rw [if_pos h, if_pos h, List.map_map]
    apply List.map_congr_left
    intro p _
    by_cases hp : p.1 = k <;> simp [hp]
  · rw [if_neg h, if_neg h]
    simp

theorem keysNodup_mapSet (m : List (List String × Ability)) (k : List String)
    (v : Ability) (h : (m.map (fun p => p.1)).Nodup) :
    ((mapSet m k v).map (fun p => p.1)).Nodup := by
  rw [keys_mapSet]
  by_cases hany : m.any (fun p => decide (p.1 = k)) = true
  · rwa [if_pos hany]
  · rw [if_neg hany]
    have hnotmem : k ∉ m.map (fun p => p.1) := by
      intro hk
      rcases List.mem_map.mp hk with ⟨p, hp, hpk⟩
      exact hany (List.any_eq_true.mpr ⟨p, hp, by simpa using hpk⟩)
    rw [List.nodup_append]
    refine ⟨h, List.nodup_singleton k, ?_⟩
    intro a ha hb
    rcases List.mem_singleton.mp hb with rfl
    exact hnotmem ha

theorem rooted_mapSet (m : List (List String × Ability)) (v : Ability)
    (h : ∀ p ∈ m, p.1 = Actor.abilityRoot p.2) :
    ∀ p ∈ mapSet m (Actor.abilityRoot v) v, p.1 = Actor.abilityRoot p.2 := by
  unfold mapSet
  by_cases hany : m.any (fun p => decide (p.1 = Actor.abilityRoot v)) = true
  · rw [if_pos hany]
    intro p hp
    rcases List.mem_map.mp hp with ⟨q, hq, hqp⟩
    by_cases hq1 : q.1 = Actor.abilityRoot v
    · rw [if_pos hq1] at hqp
      rw [← hqp]
    · rw [if_neg hq1] at hqp
      rw [← hqp]
      exact h q hq
  · rw [if_neg hany]
    intro p hp
    rcases List.mem_append.mp hp with hp1 | hp2
    · exact h p hp1
    · rcases List.mem_singleton.mp hp2 with rfl
      rfl

/-- The most generic type of a nonempty prototype chain is the singleton of
its last element. -/
theorem mostGenericTypeOf_getLast? (l : List String) (x : String)
    (h : l.getLast? = some x) : Actor.mostGenericTypeOf l = [x] := by
  induction l with
  | nil => cases h
  | cons a rest ih =>
    cases rest with
    | nil =>
      simp only [List.getLast?_singleton, Option.some.injEq] at h
      rw [← h]
      rfl
    | cons b rest2 =>
      rw [List.getLast?_cons_cons] at h
      exact ih h

/-- The last ability in a grant list whose registry root is `r`. -/
def lastWithRoot (grants : List Ability) (r : List String) : Option Ability :=
  grants.foldl (fun acc g => if Actor.abilityRoot g = r then some g else acc) none

theorem foldl_lastWithRoot (gs : List Ability) (r : List String)
    (init : Option Ability) :
    gs.foldl (fun acc g => if Actor.abilityRoot g = r then some g else acc) init =
      (lastWithRoot gs r).elim init some := by
  induction gs generalizing init with
  | nil => rfl
  | cons g rest ih =>
    show rest.foldl _ (if Actor.abilityRoot g = r then some g else init) = _
    by_cases hg : Actor.abilityRoot g = r
    · rw [if_pos hg, ih]
      have : lastWithRoot (g :: rest) r = (lastWithRoot rest r).elim (some g) some := by
        show rest.foldl _ (if Actor.abilityRoot g = r then some g else none) = _
        rw [if_pos hg, ih]
      rw [this]
      cases lastWithRoot rest r <;> rfl
    · rw [if_neg hg, ih]
      have : lastWithRoot (g :: rest) r = (lastWithRoot rest r).elim none some := by
        show rest.foldl _ (if Actor.abilityRoot g = r then some g else none) = _
        rw [if_neg hg, ih]
      rw [this]
      cases lastWithRoot rest r <;> rfl

/-- The main induction behind C3: granting a valid list of abilities always
succeeds, preserves the registry invariants, and resolves every root to the
last ability granted under it. -/
theorem whoCan_characterisation (gs : List Ability) (n : String)
    (m : List (List String × Ability))
    (hvalid : ∀ g ∈ gs, g.isAbility = true)
    (hnodup : (m.map (fun p => p.1)).Nodup)
    (hrooted : ∀ p ∈ m, p.1 = Actor.abilityRoot p.2) :
    ∃ m2, Actor.whoCan ⟨n, m⟩ gs = .ok ⟨n, m2⟩
      ∧ (m2.map (fun p => p.1)).Nodup
      ∧ (∀ p ∈ m2, p.1 = Actor.abilityRoot p.2)
      ∧ ∀ r, mapGet m2 r = (lastWithRoot gs r).elim (mapGet m r) some := by
  induction gs generalizing m with
  | nil =>
    exact ⟨m, rfl, hnodup, hrooted, fun r => rfl⟩
  | cons g rest ih =>
    have hg : g.isAbility = true := hvalid g (List.mem_cons_self g rest)
    have hacq : Actor.acquireAbility ⟨n, m⟩ g =
        .ok ⟨n, mapSet m (Actor.abilityRoot g) g⟩ := by
      unfold Actor.acquireAbility
      rw [hg]
      rfl
    have hstep : Actor.whoCan ⟨n, m⟩ (g :: rest) =
        Actor.whoCan ⟨n, mapSet m (Actor.abilityRoot g) g⟩ rest := by
      show (match Actor.acquireAbility ⟨n, m⟩ g with
        | .error e => (.error e : Except Thrown ActorState)
        | .ok actor1 => Actor.whoCan actor1 rest) = _
      rw [hacq]
    rcases ih (mapSet m (Actor.abilityRoot g) g)
        (fun x hx => hvalid x (List.mem_cons_of_mem g hx))
        (keysNodup_mapSet m _ g hnodup)
        (rooted_mapSet m g hrooted) with ⟨m2, hok, hnd, hrt, hget⟩
    refine ⟨m2, by rw [hstep]; exact hok, hnd, hrt, fun r => ?_⟩
    rw [hget r]
    have hlast : lastWithRoot (g :: rest) r =
        (lastWithRoot rest r).elim
          (if Actor.abilityRoot g = r then some g else none) some := by
      show rest.foldl _ (if Actor.abilityRoot g = r then some g else none) = _
      rw [foldl_lastWithRoot]
    rw [hlast]
    cases hlr : lastWithRoot rest r with
    | some x => rfl
    | none =>
      show mapGet (mapSet m (Actor.abilityRoot g) g) r =
        ((if Actor.abilityRoot g = r then some g else none).elim (mapGet m r) some)
      by_cases hgr : Actor.abilityRoot g = r
      · rw [if_pos hgr, ← hgr, mapGet_mapSet_self]
        rfl
      · rw [if_neg hgr, mapGet_mapSet_ne m _ r g (fun hh => hgr hh.symm)]
        rfl

/--
Claim C3: for ability types `B` strictly below `A` (both under the abstract
`Ability` root), granting a `B` instance and then resolving `A` returns that
instance (covariant lookup); and after any sequence of grants the registry
holds exactly one entry per root capability family, keyed by the root, with
the last grant under a root silently replacing earlier ones.
-/
theorem C3_covariant_registry :
    (∀ (actor : ActorState) (b : Ability) (tA : List String),
      b.isAbility = true → tA ≠ [] → tA <:+ b.abilityType →
      ∃ actor2, Actor.acquireAbility actor b = .ok actor2
        ∧ Actor.findAbilityTo actor2 tA = some b)
  ∧ (∀ (n : String) (gs : List Ability) (actor2 : ActorState),
      (∀ g ∈ gs, g.isAbility = true) →
      Actor.whoCan ⟨n, []⟩ gs = .ok actor2 →
      (actor2.abilities.map (fun p => p.1)).Nodup
        ∧ (∀ p ∈ actor2.abilities, p.1 = Actor.abilityRoot p.2)
        ∧ ∀ r, mapGet actor2.abilities r = lastWithRoot gs r) := by
  constructor
  · intro actor b tA hb htne hsuf
    refine ⟨{ actor with
      abilities := mapSet actor.abilities (Actor.abilityRoot b) b }, ?_, ?_⟩
    · unfold Actor.acquireAbility
      rw [hb]
      rfl
    · rcases hsuf with ⟨pre, hpre⟩
      rcases List.exists_mem_of_ne_nil tA htne with ⟨w, _⟩
      have htA : ∃ x, tA.getLast? = some x := by
        cases h : tA.getLast? with
        | none => exact absurd (List.getLast?_eq_none_iff.mp h) htne
        | some x => exact ⟨x, rfl⟩
      rcases htA with ⟨x, hx⟩
      have hchain : b.abilityType.getLast? = some x := by
        rw [← hpre, List.getLast?_append_of_ne_nil _ htne, hx]
      rw [Actor.findAbilityTo, mostGenericTypeOf_getLast? tA x hx]
      rw [Actor.abilityRoot, mostGenericTypeOf_getLast? _ x hchain]
      exact mapGet_mapSet_self actor.abilities [x] b
  · intro n gs actor2 hvalid hok
    rcases whoCan_characterisation gs n [] hvalid (by simp) (by simp)
      with ⟨m2, hok2, hnd, hrt, hget⟩
    rw [hok] at hok2
    cases hok2
    exact ⟨hnd, hrt, fun r => by
      rw [hget r]
      cases lastWithRoot gs r <;> rfl⟩

/-- A concrete `CallAnApi` ability instance used in witnesses. -/
def callAnApiAb : Ability :=
  ⟨true, ["CallAnApi"], false, false, false, .ok (), false, .ok ()⟩

/-- A concrete `CallAnApiAtUrl` ability instance, a strict subtype of
`CallAnApi`, used in witnesses. -/
def callAnApiAtUrlAb : Ability :=
  ⟨true, ["CallAnApiAtUrl", "CallAnApi"], false, false, false, .ok (), false, .ok ()⟩

/-- The actor state after granting `CallAnApi` and then `CallAnApiAtUrl`:
one entry, keyed by the root, holding the later grant. -/
def wendyBoth : ActorState :=
  ⟨"Wendy", [(["CallAnApi"], callAnApiAtUrlAb)]⟩

/-- Witness for C3: granting `CallAnApiAtUrl` (a strict subtype of
`CallAnApi`) and resolving `CallAnApi` returns the granted instance, and
granting `CallAnApi` and then `CallAnApiAtUrl` keeps a single,
last-written entry under the shared root. -/
theorem C3_covariant_registry_witness :
    (Actor.acquireAbility ⟨"Wendy", []⟩ callAnApiAtUrlAb).map
      (fun a2 => Actor.findAbilityTo a2 ["CallAnApi"]) = .ok (some callAnApiAtUrlAb)
  ∧ mapGet wendyBoth.abilities ["CallAnApi"] = some callAnApiAtUrlAb
  ∧ wendyBoth.abilities.length = 1 := by
  refine ⟨?_, ?_, rfl⟩
  · rcases C3_covariant_registry.1 ⟨"Wendy", []⟩ callAnApiAtUrlAb
      ["CallAnApi"] rfl (by decide) ⟨["CallAnApiAtUrl"], rfl⟩
      with ⟨a2, hacq, hfind⟩
    rw [hacq]
    simp only [Except.map]
    rw [hfind]
  · have hok : Actor.whoCan ⟨"Wendy", []⟩ [callAnApiAb, callAnApiAtUrlAb] =
        .ok wendyBoth := by decide
    have h2 := (C3_covariant_registry.2 "Wendy" [callAnApiAb, callAnApiAtUrlAb]
      wendyBoth (by decide) hok).2.2 ["CallAnApi"]
    rw [h2]
    decide

/-! ### Lemmas about the sequential promise folds of
`initialiseAbilities` and `dismiss` -/

/-- Once the initialisation chain is rejected, every later step skips its
`initialise()` call but re-wraps the rejection in a fresh
`TestCompromisedError` naming that step's ability. -/
theorem initFold_error (actor : ActorState) (l : List Ability) (tr : List String)
    (e : Thrown) :
    l.foldl
      (fun (acc : List String × Except Thrown Unit) (a : Ability) =>
        match acc.2 with
        | .ok _ =>
          match a.initialiseResult with
          | .ok _ => (acc.1 ++ [a.ctorName], .ok ())
          | .error e =>
            (acc.1 ++ [a.ctorName],
              .error (mkTestCompromisedError (Actor.initialiseFailureMsg actor a) e))
        | .error e =>
          (acc.1, .error (mkTestCompromisedError (Actor.initialiseFailureMsg actor a) e)))
      (tr, .error e) =
    (tr, .error (l.foldl
      (fun ee a => mkTestCompromisedError (Actor.initialiseFailureMsg actor a) ee) e)) := by
  induction l generalizing e with
  | nil => rfl
  | cons a rest ih => exact ih (mkTestCompromisedError (Actor.initialiseFailureMsg actor a) e)

/-- While every `initialise()` succeeds, the chain stays resolved and records
each invocation in order. -/
theorem initFold_ok (actor : ActorState) (l : List Ability) (tr : List String)
    (hok : ∀ a ∈ l, a.initialiseResult = .ok ()) :
    l.foldl
      (fun (acc : List String × Except Thrown Unit) (a : Ability) =>
        match acc.2 with
        | .ok _ =>
          match a.initialiseResult with
          | .ok _ => (acc.1 ++ [a.ctorName], .ok ())
          | .error e =>
            (acc.1 ++ [a.ctorName],
              .error (mkTestCompromisedError (Actor.initialiseFailureMsg actor a) e))
        | .error e =>
          (acc.1, .error (mkTestCompromisedError (Actor.initialiseFailureMsg actor a) e)))
      (tr, .ok ()) =
    (tr ++ l.map Ability.ctorName, .ok ()) := by
  induction l generalizing tr with
  | nil => simp
  | cons a rest ih =>
    have ha : a.initialiseResult = .ok () := hok a (List.mem_cons_self a rest)
    have hrest : ∀ x ∈ rest, x.initialiseResult = .ok () :=
      fun x hx => hok x (List.mem_cons_of_mem a hx)
    show rest.foldl _
        ((match a.initialiseResult with
         | .ok _ => (tr ++ [a.ctorName], .ok ())
         | .error e =>
           (tr ++ [a.ctorName],
             .error (mkTestCompromisedError (Actor.initialiseFailureMsg actor a) e)) :
          List String × Except Thrown Unit)) = _
    rw [ha]
    rw [ih (tr ++ [a.ctorName]) hrest]
    simp

/-- Once the dismissal chain is rejected, every later step skips its
`discard()` call and propagates the rejection unchanged. -/
theorem dismissFold_error (l : List Ability) (tr : List String) (e : Thrown) :
    l.foldl
      (fun (acc : List String × Except Thrown Unit) (a : Ability) =>
        match acc.2 with
        | .ok _ => (acc.1 ++ [a.ctorName], a.discardResult)
        | .error e => (acc.1, .error e))
      (tr, .error e) = (tr, .error e) := by
  induction l with
  | nil => rfl
  | cons a rest ih => exact ih

/-- While every `discard()` succeeds, the chain stays resolved and records
each invocation in order. -/
theorem dismissFold_ok (l : List Ability) (tr : List String)
    (hok : ∀ a ∈ l, a.discardResult = .ok ()) :
    l.foldl
      (fun (acc : List String × Except Thrown Unit) (a : Ability) =>
        match acc.2 with
        | .ok _ => (acc.1 ++ [a.ctorName], a.discardResult)
        | .error e => (acc.1, .error e))
      (tr, .ok ()) = (tr ++ l.map Ability.ctorName, .ok ()) := by
  induction l generalizing tr with
  | nil => simp
  | cons a rest ih =>
    have ha : a.discardResult = .ok () := hok a (List.mem_cons_self a rest)
    have hrest : ∀ x ∈ rest, x.discardResult = .ok () :=
      fun x hx => hok x (List.mem_cons_of_mem a hx)
    show rest.foldl _ (tr ++ [a.ctorName], a.discardResult) = _
    rw [ha, ih (tr ++ [a.ctorName]) hrest]
    simp

/-- A thrown value used as the original failure in concrete scenarios. -/
def boom : Thrown :=
  .otherValue "boom"

/-- A pending `Initialisable` ability whose `initialise()` fails with
`boom`. -/
def initA : Ability :=
  ⟨true, ["InitA"], true, true, false, .error boom, false, .ok ()⟩

/-- A pending `Initialisable` ability whose `initialise()` succeeds. -/
def initB : Ability :=
  ⟨true, ["InitB"], true, true, false, .ok (), false, .ok ()⟩

/-- An actor holding the failing `InitA` before the succeeding `InitB`. -/
def wendyInit : ActorState :=
  ⟨"Wendy", [(["InitA"], initA), (["InitB"], initB)]⟩

/--
Counterexample to C6 as stated: for the actor holding the pending abilities
`InitA` (whose `initialise()` fails with `boom`) and then `InitB`, the chain
does not fail with a `TestCompromisedError` naming the failing ability
`InitA` with cause `boom` — instead the rejection is re-wrapped at the
`InitB` step, so the surfaced error names `InitB` and its cause is another
`TestCompromisedError`, not `boom`; moreover `InitB`, though pending, never
has `initialise()` invoked.
-/
theorem C6_initialisation_counterexample :
    (Actor.initialiseAbilities wendyInit).1 = ["InitA"]
  ∧ (Actor.initialiseAbilities wendyInit).2 =
      .error (mkTestCompromisedError "Wendy couldn't initialise the ability to InitB"
        (mkTestCompromisedError "Wendy couldn't initialise the ability to InitA" boom))
  ∧ (Actor.initialiseAbilities wendyInit).2 ≠
      .error (mkTestCompromisedError "Wendy couldn't initialise the ability to InitA" boom) := by
  exact ⟨by decide, by decide, by decide⟩

/--
Claim C6 (amended): before the first activity, the pending abilities (those
exposing both `initialise` and `isInitialised` whose check returns false)
have `initialise` invoked one at a time, in order, up to and including the
first failure.  When every initialisation succeeds the chain resolves; when
ability `f` fails with `e`, the chain rejects with nested
`TestCompromisedError`s: the innermost names the actor and `f` and has cause
`e`, and each pending ability after `f` adds one further wrapping layer
naming that ability — so the error surfaced is exactly
`TestCompromisedError(<actor> couldn't initialise the ability to <f>, e)`
precisely when `f` is the last pending ability.
-/
theorem C6_ability_initialisation :
    (∀ actor : ActorState,
      (∀ g ∈ Actor.pendingInitialisable actor, g.initialiseResult = .ok ()) →
      Actor.initialiseAbilities actor =
        ((Actor.pendingInitialisable actor).map Ability.ctorName, .ok ()))
  ∧ (∀ (actor : ActorState) (good : List Ability) (f : Ability)
        (rest : List Ability) (e : Thrown),
      Actor.pendingInitialisable actor = good ++ f :: rest →
      (∀ g ∈ good, g.initialiseResult = .ok ()) →
      f.initialiseResult = .error e →
      Actor.initialiseAbilities actor =
        ((good ++ [f]).map Ability.ctorName,
          .error (rest.foldl
            (fun ee a => mkTestCompromisedError (Actor.initialiseFailureMsg actor a) ee)
            (mkTestCompromisedError (Actor.initialiseFailureMsg actor f) e)))) := by
  constructor
  · intro actor hok
    unfold Actor.initialiseAbilities
    rw [initFold_ok actor _ [] hok]
    simp
  · intro actor good f rest e hsplit hgood hf
    unfold Actor.initialiseAbilities
    rw [hsplit, List.foldl_append, initFold_ok actor good [] hgood]
    show List.foldl _
        ((match f.initialiseResult with
         | .ok _ => (([] ++ good.map Ability.ctorName) ++ [f.ctorName], .ok ())
         | .error e2 =>
           (([] ++ good.map Ability.ctorName) ++ [f.ctorName],
             .error (mkTestCompromisedError (Actor.initialiseFailureMsg actor f) e2)) :
          List String × Except Thrown Unit))
        rest = _
    rw [hf, initFold_error]
    simp

/-- Witness for C6 (amended): when the only failing pending ability is last,
the surfaced error names it directly with cause `boom` — the shape the
original claim describes — and an all-successful initialisation invokes every
pending ability in order. -/
theorem C6_ability_initialisation_witness :
    Actor.initialiseAbilities ⟨"Wendy", [(["InitB"], initB), (["InitA"], initA)]⟩ =
      (["InitB", "InitA"],
        .error (mkTestCompromisedError "Wendy couldn't initialise the ability to InitA" boom))
  ∧ Actor.initialiseAbilities ⟨"Wendy", [(["InitB"], initB)]⟩ = (["InitB"], .ok ()) := by
  constructor
  · have h := C6_ability_initialisation.2
      ⟨"Wendy", [(["InitB"], initB), (["InitA"], initA)]⟩ [initB] initA [] boom
      (by decide) (by decide) (by decide)
    rw [h]
    decide
  · have h := C6_ability_initialisation.1 ⟨"Wendy", [(["InitB"], initB)]⟩ (by decide)
    rw [h]
    decide

/-- A `Discardable` ability whose `discard()` fails with `boom`. -/
def discA : Ability :=
  ⟨true, ["DiscardableA"], false, false, false, .ok (), true, .error boom⟩

/-- A `Discardable` ability whose `discard()` succeeds. -/
def discB : Ability :=
  ⟨true, ["DiscardableB"], false, false, false, .ok (), true, .ok ()⟩

/-- An ability with no `discard` method. -/
def plainAb : Ability :=
  ⟨true, ["PlainAbility"], false, false, false, .ok (), false, .ok ()⟩

/-- An actor holding a failing discardable, a succeeding discardable and a
non-discardable ability, in that grant order. -/
def wendyDisc : ActorState :=
  ⟨"Wendy", [(["DiscardableA"], discA), (["DiscardableB"], discB),
    (["PlainAbility"], plainAb)]⟩

/--
Counterexample to C8 as stated: when the first discardable ability's
`discard()` fails, `dismiss` does not invoke `discard` on every ability
exposing it — `DiscardableB` is skipped (the trace holds only
`DiscardableA`), while the computation does reject with the failure.
-/
theorem C8_dismiss_counterexample :
    Actor.dismiss wendyDisc = (["DiscardableA"], .error boom)
  ∧ "DiscardableB" ∉ (Actor.dismiss wendyDisc).1 := by
  exact ⟨by decide, by decide⟩

/--
Claim C8 (amended): `dismiss()` invokes `discard`, sequentially in the
ability map's iteration order and never on an ability lacking the
`Discardable` shape, on the discardable abilities up to and including the
first whose `discard()` fails — on all of them when every discard succeeds —
and when a discard fails the single returned computation rejects with that
failure (the remaining discards are then not invoked).
-/
theorem C8_dismiss_discardables :
    (∀ actor : ActorState,
      (∀ a ∈ Actor.findAbilitiesOfType actor ["discard"], a.discardResult = .ok ()) →
      Actor.dismiss actor =
        ((Actor.findAbilitiesOfType actor ["discard"]).map Ability.ctorName, .ok ()))
  ∧ (∀ (actor : ActorState) (good : List Ability) (f : Ability)
        (rest : List Ability) (e : Thrown),
      Actor.findAbilitiesOfType actor ["discard"] = good ++ f :: rest →
      (∀ g ∈ good, g.discardResult = .ok ()) →
      f.discardResult = .error e →
      Actor.dismiss actor = ((good ++ [f]).map Ability.ctorName, .error e)) := by
  constructor
  · intro actor hok
    unfold Actor.dismiss
    rw [dismissFold_ok _ [] hok]
    simp
  · intro actor good f rest e hsplit hgood hf
    unfold Actor.dismiss
    rw [hsplit, List.foldl_append, dismissFold_ok good [] hgood]
    show List.foldl _ (([] ++ good.map Ability.ctorName) ++ [f.ctorName], f.discardResult)
        rest = _
    rw [hf, dismissFold_error]
    simp

/-- Witness for C8 (amended): with the succeeding discardable first, both
discards run in map order and the chain rejects with the failure of the
second; with no failures, exactly the discardables run. -/
theorem C8_dismiss_discardables_witness :
    Actor.dismiss ⟨"Wendy", [(["DiscardableB"], discB), (["PlainAbility"], plainAb),
        (["DiscardableA"], discA)]⟩ =
      (["DiscardableB", "DiscardableA"], .error boom)
  ∧ Actor.dismiss ⟨"Wendy", [(["DiscardableB"], discB), (["PlainAbility"], plainAb)]⟩ =
      (["DiscardableB"], .ok ()) := by
  constructor
  · have h := C8_dismiss_discardables.2
      ⟨"Wendy", [(["DiscardableB"], discB), (["PlainAbility"], plainAb),
        (["DiscardableA"], discA)]⟩ [discB] discA [] boom
      (by decide) (by decide) (by decide)
    rw [h]
    decide
  · have h := C8_dismiss_discardables.1
      ⟨"Wendy", [(["DiscardableB"], discB), (["PlainAbility"], plainAb)]⟩ (by decide)
    rw [h]
    decide

/-! ### Tracked-activity and activity-chain theorems -/

/-- The outcome the tracked invocation will attach to its Finished event,
determined by the wrapped activity's settlement. -/
def TrackedActivity.runOutcome (stage : Stage) (a : Activity) (n : String) : Outcome :=
  match (a.run (TrackedActivity.startStage stage a n)).2 with
  | .ok _ => .executionSuccessful
  | .error e => .problem (OutcomeMatcher.outcomeFor e)

/-- The timestamp the tracked invocation will attach to its Finished event. -/
def TrackedActivity.runFinishTime (stage : Stage) (a : Activity) (n : String) : Nat :=
  ((a.run (TrackedActivity.startStage stage a n)).1).time

/--
Claim C2: when the wrapped activity's `performAs` fails with `e`, the
tracked wrapper announces the appropriate Finished event (Task or
Interaction, by the activity's variant) carrying the outcome classified from
`e` — appended after every event the activity itself announced — and then
re-raises exactly the same error `e`: the failure is never swallowed and
never replaced.
-/
theorem C2_failure_announced_then_rethrown (st : Stage) (a : Activity) (n : String)
    (st2 : Stage) (e : Thrown)
    (hrun : a.run (TrackedActivity.startStage st a n) = (st2, .error e)) :
    (TrackedActivity.performAs st a n).2 = .error e
  ∧ ((TrackedActivity.performAs st a n).1).announced =
      st2.announced ++
        [DomainEvent.finished (TrackedActivity.kindOf a) st.sceneId
          st.nextActivityId (TrackedActivity.detailsFor a n)
          (.problem (OutcomeMatcher.outcomeFor e)) st2.time] := by
  unfold TrackedActivity.performAs
  rw [hrun]
  exact ⟨rfl, rfl⟩

/-- A concrete stage used in witnesses: scene 7, next activity id 0, empty
event stream, time 5. -/
def stage0 : Stage :=
  ⟨7, 0, 0, [], 5, 0⟩

/-- A task with a default description that always succeeds. -/
def okActivity : Activity :=
  ⟨objectSentinel, "OkActivity", "locA", false, fun st => (st, .ok ())⟩

/-- A second task with a default description that always succeeds. -/
def okActivity2 : Activity :=
  ⟨objectSentinel, "OkActivity2", "locC", false, fun st => (st, .ok ())⟩

/-- A task with a default description that always fails with `boom`. -/
def failingActivity : Activity :=
  ⟨objectSentinel, "FailingActivity", "locB", false, fun st => (st, .error boom)⟩

/-- Witness for C2: tracking the failing task announces its Starts event and
a TaskFinished event classifying `boom` as `ExecutionFailedWithError`, and
re-raises `boom` itself. -/
theorem C2_failure_announced_then_rethrown_witness :
    (TrackedActivity.performAs stage0 failingActivity "Wendy").2 = .error boom
  ∧ ((TrackedActivity.performAs stage0 failingActivity "Wendy").1).announced =
      [DomainEvent.starts .task 7 0 ⟨"Wendy performs FailingActivity", "locB"⟩ 5,
       DomainEvent.finished .task 7 0 ⟨"Wendy performs FailingActivity", "locB"⟩
         (.problem (.executionFailedWithError boom)) 5] := by
  have h := C2_failure_announced_then_rethrown stage0 failingActivity "Wendy"
    (TrackedActivity.startStage stage0 failingActivity "Wendy") boom rfl
  refine ⟨h.1, ?_⟩
  rw [h.2]
  decide

/--
Claim C10: within one tracked invocation the Starts event and the Finished
event carry the identical scene id (read from the stage before the activity
runs), the identical freshly-minted activity id and the identical
`ActivityDetails` value: all are captured once before the wrapped activity
executes and reused unchanged for the Finished announcement, on the success
and the failure path alike, whatever the activity does to the Stage state in
between (provided it only appends to the event stream).
-/
theorem C10_start_finish_correlation (st : Stage) (a : Activity) (n : String)
    (inner : List DomainEvent)
    (hmono : ((a.run (TrackedActivity.startStage st a n)).1).announced =
      (TrackedActivity.startStage st a n).announced ++ inner) :
    ((TrackedActivity.performAs st a n).1).announced =
      st.announced
        ++ [DomainEvent.starts (TrackedActivity.kindOf a) st.sceneId
              st.nextActivityId (TrackedActivity.detailsFor a n) st.time]
        ++ inner
        ++ [DomainEvent.finished (TrackedActivity.kindOf a) st.sceneId
              st.nextActivityId (TrackedActivity.detailsFor a n)
              (TrackedActivity.runOutcome st a n)
              (TrackedActivity.runFinishTime st a n)] := by
  have hstart : (TrackedActivity.startStage st a n).announced =
      st.announced ++ [DomainEvent.starts (TrackedActivity.kindOf a) st.sceneId
        st.nextActivityId (TrackedActivity.detailsFor a n) st.time] := rfl
  unfold TrackedActivity.performAs TrackedActivity.runOutcome TrackedActivity.runFinishTime
  cases hrun : a.run (TrackedActivity.startStage st a n) with
  | mk st2 res =>
    have hann : st2.announced = (TrackedActivity.startStage st a n).announced ++ inner := by
      rw [← hmono, hrun]
    cases res with
    | ok u =>
      show (st2.announce _).announced = _
      rw [Stage.announce]
      simp only [hann, hstart, hrun, Stage.currentSceneId, Stage.currentTime,
        Stage.assignNewActivityId, List.append_assoc]
    | error e =>
      show (st2.announce _).announced = _
      rw [Stage.announce]
      simp only [hann, hstart, hrun, Stage.currentSceneId, Stage.currentTime,
        Stage.assignNewActivityId, List.append_assoc]

/-- The behaviour of a nested activity: it mutates the stage's
current-activity state and announces a nested event of its own. -/
def nestedRun (st : Stage) : Stage × Except Thrown Unit :=
  ({ st with
      currentActivityId := 99
      announced := st.announced ++ [DomainEvent.starts .task 7 99 ⟨"inner", "locI"⟩ 5] },
    .ok ())

/-- A tracked interaction with the nested behaviour above. -/
def nestedActivity : Activity :=
  ⟨objectSentinel, "NestedActivity", "locN", true, nestedRun⟩

/-- Witness for C10: even though `nestedActivity` changes the stage's
current activity id to 99 and announces a nested event, its Starts and
Finished events share scene id 7, activity id 0 and the same details. -/
theorem C10_start_finish_correlation_witness :
    ((TrackedActivity.performAs stage0 nestedActivity "Wendy").1).announced =
      [DomainEvent.starts .interaction 7 0 ⟨"Wendy performs NestedActivity", "locN"⟩ 5,
       DomainEvent.starts .task 7 99 ⟨"inner", "locI"⟩ 5,
       DomainEvent.finished .interaction 7 0 ⟨"Wendy performs NestedActivity", "locN"⟩
         .executionSuccessful 5] := by
  have h := C10_start_finish_correlation stage0 nestedActivity "Wendy"
    [DomainEvent.starts .task 7 99 ⟨"inner", "locI"⟩ 5] rfl
  rw [h]
  decide

/-- Splitting the `attemptsTo` promise chain at any point. -/
theorem performChain_append (actor : ActorState) (acc : Stage × Except Thrown Unit)
    (xs ys : List Activity) :
    Actor.performChain actor acc (xs ++ ys) =
      Actor.performChain actor (Actor.performChain actor acc xs) ys := by
  unfold Actor.performChain
  exact List.foldl_append (Actor.performStep actor) acc xs ys

/-- A rejected chain ignores all remaining activities. -/
theorem performChain_error (actor : ActorState) (st : Stage) (e : Thrown)
    (ys : List Activity) :
    Actor.performChain actor (st, .error e) ys = (st, .error e) := by
  induction ys with
  | nil => rfl
  | cons a rest ih => exact ih

/--
Claim C5: `attemptsTo` executes the activities strictly sequentially in the
given order — the chain over `xs ++ ys` is the chain over `xs` continued
with `ys` — seeded by the ability-initialisation step (whose failure rejects
the whole chain before any activity runs, leaving the stage untouched), with
a stage cue-wait before each activity; and it is fail-fast: once the chain
up to some activity has rejected with `e`, appending further activities
changes neither the stage nor the rejection, and when the first failure is
activity `a` itself the whole chain rejects with exactly `a`'s error.
-/
theorem C5_attemptsTo_failfast :
    (∀ (actor : ActorState) (st : Stage) (xs ys : List Activity),
      Actor.attemptsTo actor st (xs ++ ys) =
        Actor.performChain actor (Actor.attemptsTo actor st xs) ys)
  ∧ (∀ (actor : ActorState) (st : Stage) (e : Thrown) (activities : List Activity),
      (Actor.initialiseAbilities actor).2 = .error e →
      Actor.attemptsTo actor st activities = (st, .error e))
  ∧ (∀ (actor : ActorState) (st st2 : Stage) (xs ys : List Activity) (e : Thrown),
      Actor.attemptsTo actor st xs = (st2, .error e) →
      Actor.attemptsTo actor st (xs ++ ys) = (st2, .error e))
  ∧ (∀ (actor : ActorState) (st st2 st3 : Stage) (xs ys : List Activity)
        (a : Activity) (e : Thrown),
      Actor.attemptsTo actor st xs = (st2, .ok ()) →
      TrackedActivity.performAs (st2.waitForNextCue) a actor.name = (st3, .error e) →
      Actor.attemptsTo actor st (xs ++ a :: ys) = (st3, .error e)) := by
  refine ⟨?_, ?_, ?_, ?_⟩
  · intro actor st xs ys
    unfold Actor.attemptsTo
    exact performChain_append actor _ xs ys
  · intro actor st e activities hinit
    unfold Actor.attemptsTo
    rw [hinit]
    exact performChain_error actor st e activities
  · intro actor st st2 xs ys e hxs
    have h := performChain_append actor (st, (Actor.initialiseAbilities actor).2) xs ys
    unfold Actor.attemptsTo at hxs ⊢
    rw [h, hxs]
    exact performChain_error actor st2 e ys
  · intro actor st st2 st3 xs ys a e hxs hstep
    have h := performChain_append actor (st, (Actor.initialiseAbilities actor).2)
      xs (a :: ys)
    unfold Actor.attemptsTo at hxs ⊢
    rw [h, hxs]
    show Actor.performChain actor (Actor.performStep actor (st2, .ok ()) a) ys = _
    have : Actor.performStep actor (st2, .ok ()) a = (st3, .error e) := by
      unfold Actor.performStep
      exact hstep
    rw [this]
    exact performChain_error actor st3 e ys

/-- A Wendy with no abilities, so ability initialisation succeeds
trivially. -/
def wendyPlain : ActorState :=
  ⟨"Wendy", []⟩

/-- Witness for C5: for the chain `[ok, failing, ok2]`, the third activity
never executes — the chain equals the chain over `[ok, failing]` — and the
whole computation rejects with the failing activity's own error `boom`;
and an actor whose ability initialisation fails rejects before any activity
runs, leaving the stage untouched. -/
theorem C5_attemptsTo_failfast_witness :
    Actor.attemptsTo wendyPlain stage0 [okActivity, failingActivity, okActivity2] =
      Actor.attemptsTo wendyPlain stage0 [okActivity, failingActivity]
  ∧ (Actor.attemptsTo wendyPlain stage0 [okActivity, failingActivity, okActivity2]).2 =
      .error boom
  ∧ Actor.attemptsTo wendyInit stage0 [okActivity] = (stage0,
      .error (mkTestCompromisedError "Wendy couldn't initialise the ability to InitB"
        (mkTestCompromisedError "Wendy couldn't initialise the ability to InitA" boom))) := by
  have hfail : (Actor.attemptsTo wendyPlain stage0 [okActivity, failingActivity]).2 =
      .error boom := rfl
  have hpair : Actor.attemptsTo wendyPlain stage0 [okActivity, failingActivity] =
      ((Actor.attemptsTo wendyPlain stage0 [okActivity, failingActivity]).1,
        .error boom) :=
    Prod.ext rfl hfail
  have h2 := C5_attemptsTo_failfast.2.2.1 wendyPlain stage0
    (Actor.attemptsTo wendyPlain stage0 [okActivity, failingActivity]).1
    [okActivity, failingActivity] [okActivity2] boom hpair
  have hlist : [okActivity, failingActivity, okActivity2] =
      [okActivity, failingActivity] ++ [okActivity2] := rfl
  refine ⟨?_, ?_, ?_⟩
  · rw [hlist, h2, ← hpair]
  · rw [hlist, h2]
  · exact C5_attemptsTo_failfast.2.1 wendyInit stage0 _ [okActivity] rfl

end Serenity
